import Mathlib

set_option maxRecDepth 10000

namespace QAViz

/-! Shallow embedding of the core pipeline of `src/visualize-qa.js`:
the parsed-record data model, the Q&A correlator (`extractQAPairs`),
the fallback answer normalizer (`parseAnswersFromContent`), the session
timeline builder (`buildSessionTimeline`) with its tool-argument
summarizer (`summarizeToolInput`), and the aggregate view model
(`buildViewModel`).  JS strings are modelled as Lean `String`s over
their character lists, JS `undefined` as `Option.none`, JS objects as
records, and JS string-keyed objects as association lists with
overwrite-on-assignment semantics. -/

/-- JS `s.indexOf(pat)` over character lists: index of the first
occurrence of `pat` in `s`, `none` where JS returns `-1`. -/
def idxOf : List Char → List Char → Option Nat
  | [], pat => if pat.isEmpty then some 0 else none
  | c :: rest, pat =>
    if List.isPrefixOf pat (c :: rest) then some 0
    else (idxOf rest pat).map (· + 1)

/-- JS `s.indexOf(pat, start)` (the source only calls it with
`start ≤ s.length` and a non-empty `pat`). -/
def idxOfFrom (s pat : List Char) (start : Nat) : Option Nat :=
  (idxOf (s.drop start) pat).map (· + start)

/-- JS `s.lastIndexOf(c)` for a single-character search string:
index of the last occurrence, `none` where JS returns `-1`. -/
def lastIdxOf : List Char → Char → Option Nat
  | [], _ => none
  | c :: rest, ch =>
    match lastIdxOf rest ch with
    | some i => some (i + 1)
    | none => if c = ch then some 0 else none

/-- JS `s.substring(a, b)`: clamps both arguments to the string length
and swaps them when given out of order. -/
def jsSubstring (cs : List Char) (a b : Nat) : List Char :=
  let a' := min a cs.length
  let b' := min b cs.length
  (cs.take (max a' b')).drop (min a' b')

/-- JS `s.slice(0, n)` for a non-negative `n`. -/
def jsSlice0 (s : String) (n : Nat) : String := ⟨s.data.take n⟩

/-- One match of the regex `<[^>]+>` starting right after a `<`:
the number of characters the match consumes after the `<` (at least
one non-`>` character, then the closing `>`), or `none` when the
regex does not match at this position. -/
def tagSpan (cs : List Char) : Option Nat :=
  let pre := cs.takeWhile (fun c => c ≠ '>')
  if pre.length = 0 then none
  else if pre.length < cs.length then some (pre.length + 1) else none

/-- Structural worker for the tag-stripping scan.  The fuel starts at
the input length and every step consumes at least one character while
spending exactly one unit of fuel, so the zero-fuel arm is reached only
on the empty remainder. -/
def stripGo : Nat → List Char → List Char
  | _, [] => []
  | 0, cs => cs
  | fuel + 1, c :: rest =>
    if c = '<' then
      match tagSpan rest with
      | some n => stripGo fuel (rest.drop n)
      | none => c :: stripGo fuel rest
    else c :: stripGo fuel rest

/-- The global replacement `str.replace(/<[^>]+>/g, '')`: scan left to
right, deleting each match of `<[^>]+>`. -/
def stripCore (cs : List Char) : List Char := stripGo cs.length cs

/-- JS `s.trim()` restricted to ordinary whitespace characters. -/
def jsTrim (cs : List Char) : List Char :=
  ((cs.dropWhile Char.isWhitespace).reverse.dropWhile Char.isWhitespace).reverse

/-- `stripTags` from the source: delete every `<[^>]+>` match, then trim. -/
def stripTags (s : String) : String := ⟨jsTrim (stripCore s.data)⟩

/-- Truthiness of a possibly-absent JS string: `undefined` and the
empty string are falsy. -/
def strTruthy (o : Option String) : Bool := (o.getD "") ≠ ""

/-- Truthiness of `o?.trim()` for a possibly-absent JS string. -/
def trimTruthy (o : Option String) : Bool :=
  match o with
  | none => false
  | some s => ¬ (jsTrim s.data).isEmpty

/-- The value of a `tool_result` block's `content` field as consumed by
the fallback parser, which only distinguishes strings (`typeof
contentStr === 'string'`) from everything else. -/
inductive BVal where
  | str (s : String)
  | arr
  | absent
deriving DecidableEq

/-- One element of a question's `options` array. -/
structure Choice where
  label : String
  description : String
deriving DecidableEq

/-- One element of an `AskUserQuestion` invocation's `questions` array. -/
structure Question where
  header : String
  question : String
  options : List Choice
deriving DecidableEq

/-- JS object assignment `m[k] = v`: overwrite the existing key in
place, otherwise append the new key. -/
def objSet (m : List (String × String)) (k v : String) : List (String × String) :=
  if m.any (fun p => p.1 = k) then m.map (fun p => if p.1 = k then (k, v) else p)
  else m ++ [(k, v)]

/-- The search pattern `"<question>"="` for one question. -/
def answerPat (q : Question) : List Char := ("\"" ++ q.question ++ "\"=\"").data

/-- Where an answer starting at `start` ends: at the next `", "`, else
at the last `"` in the whole string (when that lies beyond `start`),
else at the end of the string. -/
def answerStop (cs : List Char) (start : Nat) : Nat :=
  match idxOfFrom cs ("\", \"".data) start with
  | some e => e
  | none =>
    match lastIdxOf cs '"' with
    | some e => if e ≤ start then cs.length else e
    | none => cs.length

/-- One iteration of the fallback parser's loop: locate the question's
pattern and record the delimited answer, or leave the accumulator
unchanged when the pattern is absent. -/
def answerStep (cs : List Char) (answers : List (String × String))
    (q : Question) : List (String × String) :=
  match idxOf cs (answerPat q) with
  | none => answers
  | some idx =>
    objSet answers q.question
      ⟨jsSubstring cs (idx + (answerPat q).length)
        (answerStop cs (idx + (answerPat q).length))⟩

/-- `parseAnswersFromContent` from the source: the fallback parser for
the free-text answer representation, looping over the known questions
and accumulating into a fresh object. -/
def parseAnswersFromContent (contentStr : BVal) (questions : List Question) :
    List (String × String) :=
  match contentStr with
  | .str s => questions.foldl (answerStep s.data) []
  | _ => []

/-- The fields of a tool invocation's `input` object that the core
reads: the `questions` array of an `AskUserQuestion` call and the six
string fields tried by `summarizeToolInput`. -/
structure ToolInput where
  questions : Option (List Question)
  command : Option String
  file_path : Option String
  pattern : Option String
  query : Option String
  url : Option String
  content : Option String
deriving DecidableEq

/-- A content block inside a turn's `message.content` array, with the
fields the core reads for each `type` (`text`, `thinking`, `tool_use`,
`tool_result`). -/
structure Block where
  type : String
  name : Option String
  id : String
  input : Option ToolInput
  tool_use_id : String
  is_error : Bool
  content : BVal
  text : Option String
deriving DecidableEq

/-- A `message.content` value: either a plain string or an array of
content blocks. -/
inductive MsgContent where
  | str (s : String)
  | blocks (bs : List Block)
deriving DecidableEq

/-- A record's `message` object (absent fields beyond `content` are
never read by the core). -/
structure Message where
  content : Option MsgContent
deriving DecidableEq

/-- A record's side-channel `toolUseResult` object; only its `answers`
mapping is read. -/
structure ToolUseResult where
  answers : Option (List (String × String))
deriving DecidableEq

/-- One parsed JSONL record, with the fields the core pipeline reads. -/
structure Entry where
  type : String
  timestamp : Option String
  message : Option Message
  toolUseResult : Option ToolUseResult
deriving DecidableEq

/-- The `Array.isArray(entry.message?.content)` access path: the block
array of a record's message, when the message exists and its content is
an array. -/
def arrayContent (m : Option Message) : Option (List Block) :=
  match m with
  | some msg =>
    match msg.content with
    | some (.blocks bs) => some bs
    | _ => none
  | none => none

/-- `block.input?.questions || []`. -/
def questionsOf (b : Block) : List Question :=
  (b.input.bind ToolInput.questions).getD []

/-- The value stored in the correlator's `toolUseMap` for one
registered `AskUserQuestion` invocation. -/
structure AskData where
  questions : List Question
  lineIndex : Nat
  timestamp : Option String
  toolUseId : String
deriving DecidableEq

/-- Pass 1 of `extractQAPairs`, for one content block: the map
assignment contributed by an `AskUserQuestion` `tool_use` block. -/
def askOfBlock (i : Nat) (e : Entry) (b : Block) : Option (String × AskData) :=
  if b.type = "tool_use" ∧ b.name = some "AskUserQuestion" then
    some (b.id,
      { questions := questionsOf b, lineIndex := i,
        timestamp := e.timestamp, toolUseId := b.id })
  else none

/-- Pass 1 of `extractQAPairs`, for one record: the `(id, data)` map
assignments contributed by the record's `AskUserQuestion` `tool_use`
blocks. -/
def askBlocks (i : Nat) (e : Entry) : List (String × AskData) :=
  if e.type = "assistant" then
    match arrayContent e.message with
    | some bs => bs.filterMap (askOfBlock i e)
    | none => []
  else []

/-- All map assignments of pass 1, in program order. -/
def askList (records : List Entry) : List (String × AskData) :=
  (List.enumFrom 0 records).flatMap (fun p => askBlocks p.1 p.2)

/-- `toolUseMap.get k` after pass 1: JS `Map.set` overwrites, so the
last assignment to a key wins. -/
def lookupAsk (records : List Entry) (k : String) : Option AskData :=
  (askList records).foldl (fun acc p => if p.1 = k then some p.2 else acc) none

/-- The content blocks pass 2 iterates over for one record: the array
content of user-authored records, nothing otherwise. -/
def userBlocksOf (e : Entry) : List Block :=
  if e.type = "user" then (arrayContent e.message).getD [] else []

/-- The answer-mapping resolution of pass 2: the structured
`entry.toolUseResult.answers` when that access path is truthy,
otherwise the fallback parse of the block's content string. -/
def resolveAnswers (e : Entry) (b : Block) (qs : List Question) :
    List (String × String) :=
  match e.toolUseResult with
  | some r =>
    match r.answers with
    | some a => a
    | none => parseAnswersFromContent b.content qs
  | none => parseAnswersFromContent b.content qs

/-- One emitted Q/A pair. -/
structure QAPair where
  questions : List Question
  answers : List (String × String)
  askTimestamp : Option String
  answerTimestamp : Option String
  askLineIndex : Nat
  answerLineIndex : Nat
  toolUseId : String
deriving DecidableEq

/-- The pair pushed by pass 2 for a matched, non-errored response block
`b` of record `e` at sequence position `i`. -/
def mkPair (ask : AskData) (i : Nat) (e : Entry) (b : Block) : QAPair :=
  { questions := ask.questions
    answers := resolveAnswers e b ask.questions
    askTimestamp := ask.timestamp
    answerTimestamp := e.timestamp
    askLineIndex := ask.lineIndex
    answerLineIndex := i
    toolUseId := ask.toolUseId }

/-- Pass 2 of `extractQAPairs`, for one content block: a pair when the
block is a `tool_result` whose `tool_use_id` is registered and that is
not flagged `is_error`. -/
def pairOfBlock (records : List Entry) (i : Nat) (e : Entry) (b : Block) :
    Option QAPair :=
  if b.type = "tool_result" then
    match lookupAsk records b.tool_use_id with
    | some ask => if b.is_error then none else some (mkPair ask i e b)
    | none => none
  else none

/-- Pass 2 of `extractQAPairs`, for one record. -/
def pairsOfEntry (records : List Entry) (i : Nat) (e : Entry) : List QAPair :=
  (userBlocksOf e).filterMap (pairOfBlock records i e)

/-- `extractQAPairs` from the source: index the `AskUserQuestion`
invocations by id (pass 1), then emit a pair for every matching,
non-errored `tool_result` response in record order (pass 2). -/
def extractQAPairs (records : List Entry) : List QAPair :=
  (List.enumFrom 0 records).flatMap (fun p => pairsOfEntry records p.1 p.2)

/-- Observable used to state the correlator claims: `some` exactly for
a well-formed response block for correlation id `k`, i.e. a
`tool_result` block whose `tool_use_id` is `k` and that is not flagged
`is_error`. -/
def respOfBlock (k : String) (i : Nat) (e : Entry) (b : Block) :
    Option (Nat × Entry × Block) :=
  if b.type = "tool_result" ∧ b.tool_use_id = k ∧ ¬ b.is_error then
    some (i, e, b)
  else none

/-- All well-formed response blocks for correlation id `k` among the
user-authored records, with their record and sequence position. -/
def responsesFor (records : List Entry) (k : String) :
    List (Nat × Entry × Block) :=
  (List.enumFrom 0 records).flatMap (fun p =>
    (userBlocksOf p.2).filterMap (respOfBlock k p.1 p.2))

/-- Replacing a record's array content (used to state the
noise-invariance theorems). -/
def withBlocks (e : Entry) (f : List Block → List Block) : Entry :=
  match e.message with
  | some msg =>
    match msg.content with
    | some (.blocks bs) => { e with message := some { content := some (.blocks (f bs)) } }
    | _ => e
  | none => e

/-- A record with its error-flagged `tool_result` blocks removed. -/
def scrubErrored (e : Entry) : Entry :=
  withBlocks e (fun bs => bs.filter (fun b => ¬ (b.type = "tool_result" ∧ b.is_error)))

/-- JSON string escaping as performed by `JSON.stringify`, for the
character ranges occurring in the modelled inputs. -/
def jsonEscapeChar (c : Char) : List Char :=
  if c = '\\' then ['\\', '\\']
  else if c = '"' then ['\\', '"']
  else if c = '\n' then ['\\', 'n']
  else if c = '\t' then ['\\', 't']
  else if c = '\r' then ['\\', 'r']
  else [c]

/-- A JSON string literal. -/
def jsonStr (s : String) : String := "\"" ++ ⟨s.data.flatMap jsonEscapeChar⟩ ++ "\""

/-- One serialized object property, skipped when the value is absent
(`JSON.stringify` drops `undefined`-valued properties). -/
def jsonField (nm : String) (v : Option String) : List String :=
  match v with
  | some s => [jsonStr nm ++ ":" ++ jsonStr s]
  | none => []

/-- Serialization of one `options` element. -/
def jsonChoice (c : Choice) : String :=
  "\x7b" ++ jsonStr "label" ++ ":" ++ jsonStr c.label ++ ","
    ++ jsonStr "description" ++ ":" ++ jsonStr c.description ++ "\x7d"

/-- Serialization of one `questions` element. -/
def jsonQuestion (q : Question) : String :=
  "\x7b" ++ jsonStr "header" ++ ":" ++ jsonStr q.header ++ ","
    ++ jsonStr "question" ++ ":" ++ jsonStr q.question ++ ","
    ++ jsonStr "options" ++ ":["
    ++ String.intercalate "," (q.options.map jsonChoice) ++ "]\x7d"

/-- `JSON.stringify(input)` over the modelled `input` fields, present
fields serialized in declaration order. -/
def stringifyToolInput (input : ToolInput) : String :=
  let fields :=
    (match input.questions with
     | some qs =>
       [jsonStr "questions" ++ ":["
         ++ String.intercalate "," (qs.map jsonQuestion) ++ "]"]
     | none => [])
    ++ jsonField "command" input.command
    ++ jsonField "file_path" input.file_path
    ++ jsonField "pattern" input.pattern
    ++ jsonField "query" input.query
    ++ jsonField "url" input.url
    ++ jsonField "content" input.content
  "\x7b" ++ String.intercalate "," fields ++ "\x7d"

/-- `summarizeToolInput` from the source: try the invocation's argument
fields in priority order, first truthy field wins; `command`, `query`,
`content` and the serialization fallback are sliced to 120 characters,
`file_path`, `pattern` (prefixed with `pattern: `) and `url` are
returned whole. -/
def summarizeToolInput (b : Block) : String :=
  match b.input with
  | none => ""
  | some input =>
    if strTruthy input.command then jsSlice0 (input.command.getD "") 120
    else if strTruthy input.file_path then input.file_path.getD ""
    else if strTruthy input.pattern then "pattern: " ++ input.pattern.getD ""
    else if strTruthy input.query then jsSlice0 (input.query.getD "") 120
    else if strTruthy input.url then input.url.getD ""
    else if strTruthy input.content then jsSlice0 (input.content.getD "") 120
    else jsSlice0 (stringifyToolInput input) 120

/-- One display-oriented timeline entry, tagged like the source's
`type` field. -/
inductive TimelineEntry where
  | assistant_text (timestamp : String) (content : String) (lineIndex : Nat)
  | ask_user_question (timestamp : String) (toolUseId : String)
      (questions : List Question) (lineIndex : Nat)
  | tool_use (timestamp : String) (toolName : Option String)
      (content : String) (lineIndex : Nat)
  | user_text (timestamp : String) (content : String) (lineIndex : Nat)
  | user_answer (timestamp : String) (toolUseId : String)
      (answers : List (String × String)) (lineIndex : Nat)
deriving DecidableEq

/-- The `timestamp` carried by a timeline entry. -/
def TimelineEntry.ts : TimelineEntry → String
  | .assistant_text t _ _ => t
  | .ask_user_question t _ _ _ => t
  | .tool_use t _ _ _ => t
  | .user_text t _ _ => t
  | .user_answer t _ _ _ => t

/-- The `lineIndex` carried by a timeline entry. -/
def TimelineEntry.idx : TimelineEntry → Nat
  | .assistant_text _ _ i => i
  | .ask_user_question _ _ _ i => i
  | .tool_use _ _ _ i => i
  | .user_text _ _ i => i
  | .user_answer _ _ _ i => i

/-- Case-insensitive "starts with" over character lists, modelling one
alternative of an anchored `/.../i` regex test. -/
def ciStarts (s p : List Char) : Bool :=
  List.isPrefixOf (p.map Char.toLower) (s.map Char.toLower)

/-- The system-injected boilerplate test
`/^(SessionStart|currentDate|Today|The following|As you answer)/i`. -/
def isBoilerplate (s : String) : Bool :=
  ["SessionStart", "currentDate", "Today", "The following", "As you answer"].any
    (fun p => ciStarts s.data p.data)

/-- Timeline contribution of one content block of an assistant-authored
record: `thinking` blocks are skipped; non-trivial text becomes an
`assistant_text` entry; `AskUserQuestion` invocations become
`ask_user_question` entries; other invocations become `tool_use`
entries with a summarized argument snippet. -/
def assistantBlockTL (i : Nat) (ts : String) (b : Block) : List TimelineEntry :=
  if b.type = "thinking" then []
  else if b.type = "text" ∧ trimTruthy b.text then
    if (stripTags (b.text.getD "")).length < 3 then []
    else [.assistant_text ts (stripTags (b.text.getD "")) i]
  else if b.type = "tool_use" then
    if b.name = some "AskUserQuestion" then
      [.ask_user_question ts b.id (questionsOf b) i]
    else
      [.tool_use ts b.name (summarizeToolInput b) i]
  else []

/-- Timeline contribution of one content block of a user-authored
record with array content: non-trivial, non-boilerplate text becomes a
`user_text` entry; a `tool_result` block becomes a `user_answer` entry
exactly when the record carries a `toolUseResult`; everything else is
dropped. -/
def userBlockTL (i : Nat) (ts : String) (e : Entry) (b : Block) :
    List TimelineEntry :=
  if b.type = "text" then
    if (stripTags (b.text.getD "")).length < 3 then []
    else if isBoilerplate (stripTags (b.text.getD "")) then []
    else [.user_text ts (stripTags (b.text.getD "")) i]
  else if b.type = "tool_result" then
    match e.toolUseResult with
    | some r => [.user_answer ts b.tool_use_id (r.answers.getD []) i]
    | none => []
  else []

/-- Timeline contribution of one record: records without a message or
without a truthy timestamp and `file-history-snapshot` records are
skipped; assistant records contribute per block of their array content;
user records contribute either one entry for plain-string content or
per block of array content. -/
def entryTL (i : Nat) (e : Entry) : List TimelineEntry :=
  if e.message.isNone then []
  else if ¬ strTruthy e.timestamp then []
  else if e.type = "file-history-snapshot" then []
  else if e.type = "assistant" then
    match arrayContent e.message with
    | some bs => bs.flatMap (assistantBlockTL i (e.timestamp.getD ""))
    | none => []
  else if e.type = "user" then
    match e.message with
    | some msg =>
      match msg.content with
      | some (.str s) =>
        if 3 ≤ (stripTags s).length then
          [.user_text (e.timestamp.getD "") (stripTags s) i]
        else []
      | some (.blocks bs) => bs.flatMap (userBlockTL i (e.timestamp.getD "") e)
      | none => []
    | none => []
  else []

/-- `buildSessionTimeline` from the source: single forward pass,
concatenating each record's contribution in input order. -/
def buildSessionTimeline (records : List Entry) : List TimelineEntry :=
  (List.enumFrom 0 records).flatMap (fun p => entryTL p.1 p.2)

/-- A narrative text block that the timeline builder suppresses: for an
assistant-authored record, text whose trimmed value is falsy or whose
cleaned value is shorter than 3 characters; for a user-authored record
with array content, text whose cleaned value is shorter than 3
characters or matches a boilerplate start. -/
def narrativeNoiseB (e : Entry) (b : Block) : Bool :=
  b.type = "text" ∧
    (if e.type = "assistant" then
      (¬ trimTruthy b.text ∨ (stripTags (b.text.getD "")).length < 3 : Prop)
    else if e.type = "user" then
      ((stripTags (b.text.getD "")).length < 3 ∨ isBoilerplate (stripTags (b.text.getD "")) : Prop)
    else False)

/-- A record with its suppressed narrative text blocks removed. -/
def scrubNarrative (e : Entry) : Entry :=
  withBlocks e (fun bs => bs.filter (fun b => ¬ narrativeNoiseB e b))

/-- Observable used to state the narrative claims: a narrative entry's
cleaned text meets the minimum display length. -/
def narrativeLenOK : TimelineEntry → Prop
  | .assistant_text _ c _ => 3 ≤ c.length
  | .user_text _ c _ => 3 ≤ c.length
  | _ => True

/-- The numeric value of a decimal digit string. -/
def digitsVal (cs : List Char) : Nat :=
  cs.foldl (fun n c => 10 * n + (c.toNat - '0'.toNat)) 0

/-- Every character is a decimal digit. -/
def allDigits (cs : List Char) : Bool := cs.all Char.isDigit

/-- Days of the given month in the proleptic Gregorian calendar. -/
def daysInMonth (y : Int) (m : Nat) : Nat :=
  if m = 2 then (if (y % 4 = 0 ∧ y % 100 ≠ 0) ∨ y % 400 = 0 then 29 else 28)
  else if m = 4 ∨ m = 6 ∨ m = 9 ∨ m = 11 then 30 else 31

/-- Days since 1970-01-01 of a proleptic Gregorian date (the civil
day-count computation used by timestamp arithmetic). -/
def daysFromCivil (y : Int) (m d : Nat) : Int :=
  let yAdj : Int := if m ≤ 2 then y - 1 else y
  let era : Int := (if 0 ≤ yAdj then yAdj else yAdj - 399) / 400
  let yoe : Int := yAdj - era * 400
  let mp : Nat := (m + 9) % 12
  let doy : Int := (153 * (mp : Int) + 2) / 5 + (d : Int) - 1
  let doe : Int := yoe * 365 + yoe / 4 - yoe / 100 + doy
  era * 146097 + doe - 719468

/-- `new Date(s).getTime()` restricted to the canonical UTC timestamp
forms `YYYY-MM-DDTHH:MM:SSZ` and `YYYY-MM-DDTHH:MM:SS.sssZ` used by the
session logs: milliseconds since the epoch, or `none` modelling `NaN`
for any other string. -/
def parseISOms (s : String) : Option Int :=
  let cs := s.data
  let y := cs.take 4
  let mo := (cs.drop 5).take 2
  let d := (cs.drop 8).take 2
  let hh := (cs.drop 11).take 2
  let mi := (cs.drop 14).take 2
  let ss := (cs.drop 17).take 2
  let seps := [cs.get? 4, cs.get? 7, cs.get? 10, cs.get? 13, cs.get? 16]
  let msPart : Option Nat :=
    match cs.drop 19 with
    | ['Z'] => some 0
    | ['.', a, b, c, 'Z'] => if allDigits [a, b, c] then some (digitsVal [a, b, c]) else none
    | _ => none
  if seps = [some '-', some '-', some 'T', some ':', some ':']
      ∧ y.length = 4 ∧ allDigits y ∧ mo.length = 2 ∧ allDigits mo
      ∧ d.length = 2 ∧ allDigits d ∧ hh.length = 2 ∧ allDigits hh
      ∧ mi.length = 2 ∧ allDigits mi ∧ ss.length = 2 ∧ allDigits ss then
    match msPart with
    | none => none
    | some ms =>
      let yv : Int := (digitsVal y : Int)
      let mv := digitsVal mo
      let dv := digitsVal d
      if 1 ≤ mv ∧ mv ≤ 12 ∧ 1 ≤ dv ∧ dv ≤ daysInMonth yv mv
          ∧ digitsVal hh ≤ 23 ∧ digitsVal mi ≤ 59 ∧ digitsVal ss ≤ 59 then
        some (daysFromCivil yv mv dv * 86400000
          + ((digitsVal hh * 3600000 + digitsVal mi * 60000
              + digitsVal ss * 1000 + ms : Nat) : Int))
      else none
  else none

/-- The metadata fields of a session that `buildViewModel` reads. -/
structure SessionMeta where
  projectName : String
  startTime : String
deriving DecidableEq

/-- One per-file session handed to the aggregator. -/
structure Session where
  meta : SessionMeta
  qaPairs : List QAPair
  timeline : List TimelineEntry
deriving DecidableEq

/-- Stable insertion into a sorted list: `x` goes before the first `y`
with `le x y`. -/
def insertCmp (le : α → α → Bool) (x : α) : List α → List α
  | [] => [x]
  | y :: ys => if le x y then x :: y :: ys else y :: insertCmp le x ys

/-- Stable comparator sort, modelling `Array.prototype.sort`: for a
consistent comparator the stable sorted permutation is unique, so this
agrees with the engine's stable sort on every input the sortedness
claims cover. -/
def sortCmp (le : α → α → Bool) : List α → List α
  | [] => []
  | x :: xs => insertCmp le x (sortCmp le xs)

/-- The session comparator `(a, b) => new Date(b.meta.startTime) -
new Date(a.meta.startTime)` as a "may come first" relation: `a` may
precede `b` when the comparator value is `≤ 0`; a `NaN` comparator
value is treated as `0` by the sort. -/
def sessionCmpLe (a b : Session) : Bool :=
  match parseISOms b.meta.startTime, parseISOms a.meta.startTime with
  | some db, some da => db - da ≤ 0
  | _, _ => true

/-- Observable used to state the sort claim: `a` may precede `b` in a
start-date-descending order, comparing parsed timestamps (an
unparsable timestamp compares as the epoch). -/
def startLe (a b : Session) : Bool :=
  (parseISOms b.meta.startTime).getD 0 ≤ (parseISOms a.meta.startTime).getD 0

/-- The distinct values of a list in first-occurrence order, modelling
`new Set(...)` insertion. -/
def distinctList (l : List String) : List String :=
  l.foldl (fun acc x => if x ∈ acc then acc else acc ++ [x]) []

/-- Appending a session to its project's group, creating the group on
first sight (JS object property insertion order). -/
def addGroup (g : List (String × List Session)) (k : String) (s : Session) :
    List (String × List Session) :=
  if g.any (fun p => p.1 = k) then
    g.map (fun p => if p.1 = k then (p.1, p.2 ++ [s]) else p)
  else g ++ [(k, [s])]

/-- The `grouped` object: sessions bucketed by project name in input
order. -/
def groupByProject (l : List Session) : List (String × List Session) :=
  l.foldl (fun acc s => addGroup acc s.meta.projectName s) []

/-- The aggregate view model handed to rendering. -/
structure ViewModel where
  totalSessions : Nat
  totalProjects : Nat
  qaSessionCount : Nat
  totalQA : Nat
  grouped : List (String × List Session)
  sessions : List Session

/-- `buildViewModel` from the source: totals over all sessions, then
the sessions with at least one Q/A pair sorted by start date descending
and grouped by project. -/
def buildViewModel (allSessions : List Session) : ViewModel :=
  let withQA := allSessions.filter (fun s => 0 < s.qaPairs.length)
  let sorted := sortCmp sessionCmpLe withQA
  { totalSessions := allSessions.length
    totalProjects := (distinctList (allSessions.map (fun s => s.meta.projectName))).length
    qaSessionCount := withQA.length
    totalQA := withQA.foldl (fun sum s => sum + s.qaPairs.length) 0
    grouped := groupByProject sorted
    sessions := sorted }

/-! Concrete fixtures used by claim witnesses and counterexamples. -/

/-- A sample question. -/
def exQProceed : Question :=
  { header := "Next", question := "Proceed?",
    options := [{ label := "Yes", description := "go" },
                { label := "No", description := "stop" }] }

/-- A tool input with every field absent. -/
def tiNone : ToolInput :=
  { questions := none, command := none, file_path := none, pattern := none,
    query := none, url := none, content := none }

/-- A sample `AskUserQuestion` invocation block with id `X`. -/
def exAskBlock : Block :=
  { type := "tool_use", name := some "AskUserQuestion", id := "X",
    input := some { tiNone with questions := some [exQProceed] },
    tool_use_id := "", is_error := false, content := .absent, text := none }

/-- A sample assistant record carrying `exAskBlock`. -/
def exAskEntry : Entry :=
  { type := "assistant", timestamp := some "2024-01-01T00:00:00.000Z",
    message := some (Message.mk (some (MsgContent.blocks [exAskBlock]))),
    toolUseResult := none }

/-- A sample response block answering id `X`. -/
def exRespBlock : Block :=
  { type := "tool_result", name := none, id := "", input := none,
    tool_use_id := "X", is_error := false,
    content := .str "User has answered your questions: \"Proceed?\"=\"Yes\".",
    text := none }

/-- A sample user record carrying `exRespBlock` and a structured
answer mapping. -/
def exRespEntry : Entry :=
  { type := "user", timestamp := some "2024-01-01T00:01:00.000Z",
    message := some (Message.mk (some (MsgContent.blocks [exRespBlock]))),
    toolUseResult := some { answers := some [("Proceed?", "Yes")] } }

/-- A one-request, one-response record sequence. -/
def exC1Records : List Entry := [exAskEntry, exRespEntry]

/-- The map value registered for id `X` in `exC1Records`. -/
def exC1Ask : AskData :=
  { questions := [exQProceed], lineIndex := 0,
    timestamp := some "2024-01-01T00:00:00.000Z", toolUseId := "X" }

/-- The request record of `exC1Records` with its timestamp removed. -/
def exAskEntryNoTs : Entry := { exAskEntry with timestamp := none }

/-- The response record of `exC1Records` with its timestamp removed. -/
def exRespEntryNoTs : Entry := { exRespEntry with timestamp := none }

/-- A request/response sequence whose records carry no timestamps. -/
def exC4Records : List Entry := [exAskEntryNoTs, exRespEntryNoTs]

/-- A non-question tool invocation block with id `B1`. -/
def exBashBlock : Block :=
  { type := "tool_use", name := some "Bash", id := "B1",
    input := some { tiNone with command := some "ls" },
    tool_use_id := "", is_error := false, content := .absent, text := none }

/-- An assistant record invoking an ordinary tool. -/
def exBashEntry : Entry :=
  { type := "assistant", timestamp := some "2024-01-01T00:00:00.000Z",
    message := some (Message.mk (some (MsgContent.blocks [exBashBlock]))),
    toolUseResult := none }

/-- The generic result block of that tool invocation. -/
def exBashResultBlock : Block :=
  { type := "tool_result", name := none, id := "", input := none,
    tool_use_id := "B1", is_error := false, content := .str "file.txt",
    text := none }

/-- The user record carrying the generic tool result together with a
side-channel `toolUseResult` (as ordinary tool results do). -/
def exBashResultEntry : Entry :=
  { type := "user", timestamp := some "2024-01-01T00:01:00.000Z",
    message := some (Message.mk (some (MsgContent.blocks [exBashResultBlock]))),
    toolUseResult := some { answers := none } }

/-- A sequence with one ordinary tool call and its generic result. -/
def exC5Records : List Entry := [exBashEntry, exBashResultEntry]

/-- A 130-character file path. -/
def exLongPath : String := String.mk (List.replicate 130 'a')

/-- A tool invocation whose only argument is the long file path. -/
def exC8Block : Block :=
  { type := "tool_use", name := some "Read", id := "T8",
    input := some { tiNone with file_path := some exLongPath },
    tool_use_id := "", is_error := false, content := .absent, text := none }

/-- An assistant record carrying `exC8Block`. -/
def exC8Entry : Entry :=
  { type := "assistant", timestamp := some "2024-01-01T00:02:00.000Z",
    message := some (Message.mk (some (MsgContent.blocks [exC8Block]))),
    toolUseResult := none }

/-- A 130-character literal content argument. -/
def exLongContent : String := String.mk (List.replicate 130 'c')

/-- A tool invocation whose only argument is the long literal
content. -/
def exC8ContentBlock : Block :=
  { type := "tool_use", name := some "Write", id := "T9",
    input := some { tiNone with content := some exLongContent },
    tool_use_id := "", is_error := false, content := .absent, text := none }

/-- An assistant text block whose cleaned text starts with a
boilerplate word. -/
def exBoilerBlock : Block :=
  { type := "text", name := none, id := "", input := none,
    tool_use_id := "", is_error := false, content := .absent,
    text := some "Today we will fix the bug" }

/-- An assistant record carrying `exBoilerBlock`. -/
def exC9Entry : Entry :=
  { type := "assistant", timestamp := some "2024-01-01T00:03:00.000Z",
    message := some (Message.mk (some (MsgContent.blocks [exBoilerBlock]))),
    toolUseResult := none }

/-- A sample resolved pair. -/
def exPair : QAPair :=
  { questions := [exQProceed], answers := [("Proceed?", "Yes")],
    askTimestamp := some "2024-01-01T00:00:00.000Z",
    answerTimestamp := some "2024-01-01T00:01:00.000Z",
    askLineIndex := 0, answerLineIndex := 1, toolUseId := "X" }

/-- A session with one pair. -/
def exSessionA : Session :=
  { meta := { projectName := "Alpha", startTime := "2024-01-02T00:00:00.000Z" },
    qaPairs := [exPair], timeline := [] }

/-- A later session with one pair in another project. -/
def exSessionB : Session :=
  { meta := { projectName := "Beta", startTime := "2024-01-03T00:00:00.000Z" },
    qaPairs := [exPair], timeline := [] }

/-- A zero-pair session with an unparsable start time. -/
def exSessionZero : Session :=
  { meta := { projectName := "Gamma", startTime := "nope" },
    qaPairs := [], timeline := [] }

/-- A sample session collection. -/
def exSessions : List Session := [exSessionA, exSessionB, exSessionZero]

/-! Lemmas about the correlator. -/

lemma askList_key {records : List Entry} {p : String × AskData}
    (hp : p ∈ askList records) : p.2.toolUseId = p.1 := by
  unfold askList at hp
  rw [List.mem_flatMap] at hp
  obtain ⟨q, -, hq⟩ := hp
  unfold askBlocks at hq
  split at hq
  · split at hq
    · rw [List.mem_filterMap] at hq
      obtain ⟨b, -, hb⟩ := hq
      unfold askOfBlock at hb
      split at hb
      · simp only [Option.some.injEq] at hb
        rw [← hb]
      · cases hb
    · cases hq
  · cases hq

lemma lookupAsk_key {records : List Entry} {k : String} {a : AskData}
    (h : lookupAsk records k = some a) : a.toolUseId = k := by
  unfold lookupAsk at h
  have haux : ∀ (l : List (String × AskData)) (acc : Option AskData),
      (∀ p ∈ l, p.2.toolUseId = p.1) →
      (∀ x, acc = some x → x.toolUseId = k) →
      ∀ x, l.foldl (fun acc p => if p.1 = k then some p.2 else acc) acc = some x →
        x.toolUseId = k := by
    intro l
    induction l with
    | nil => intro acc _ hacc x hx; exact hacc x hx
    | cons p rest ih =>
      intro acc hl hacc x hx
      refine ih _ (fun q hq => hl q (List.mem_cons_of_mem _ hq)) ?_ x hx
      intro y hy
      dsimp only at hy
      by_cases hk : p.1 = k
      · rw [if_pos hk] at hy
        rw [← Option.some.inj hy]
        rw [hl p (List.mem_cons_self p rest)]
        exact hk
      · rw [if_neg hk] at hy
        exact hacc y hy
  exact haux (askList records) none (fun p hp => askList_key hp)
    (by intro x hx; cases hx) a h

lemma pairOfBlock_cases (records : List Entry) {k : String} {ask : AskData}
    (hreg : lookupAsk records k = some ask) (i : Nat) (e : Entry) (b : Block) :
    (pairOfBlock records i e b = none ∧ respOfBlock k i e b = none)
    ∨ (∃ p, pairOfBlock records i e b = some p ∧ ¬ p.toolUseId = k
        ∧ respOfBlock k i e b = none)
    ∨ (pairOfBlock records i e b = some (mkPair ask i e b)
        ∧ (mkPair ask i e b).toolUseId = k
        ∧ respOfBlock k i e b = some (i, e, b)) := by
  by_cases ht : b.type = "tool_result"
  · cases hL : lookupAsk records b.tool_use_id with
    | none =>
      left
      have hnk : ¬ b.tool_use_id = k := by
        intro hk; rw [hk, hreg] at hL; cases hL
      constructor
      · simp [pairOfBlock, ht, hL]
      · simp [respOfBlock, ht, hnk]
    | some ask' =>
      by_cases herr : b.is_error
      · left
        constructor
        · simp [pairOfBlock, ht, hL, herr]
        · simp [respOfBlock, ht, herr]
      · by_cases hk : b.tool_use_id = k
        · right; right
          have hask : ask' = ask := by
            rw [hk, hreg] at hL; exact (Option.some.inj hL).symm
          subst hask
          refine ⟨by simp [pairOfBlock, ht, hL, herr], ?_, ?_⟩
          · show ask'.toolUseId = k
            exact lookupAsk_key hreg
          · simp [respOfBlock, ht, hk, herr]
        · right; left
          refine ⟨mkPair ask' i e b, by simp [pairOfBlock, ht, hL, herr], ?_, ?_⟩
          · show ¬ ask'.toolUseId = k
            rw [lookupAsk_key hL]
            exact hk
          · simp [respOfBlock, hk]
  · left
    constructor
    · simp [pairOfBlock, ht]
    · simp [respOfBlock, ht]

lemma filter_filterMap_pairs (records : List Entry) {k : String} {ask : AskData}
    (hreg : lookupAsk records k = some ask) (i : Nat) (e : Entry)
    (l : List Block) :
    (l.filterMap (pairOfBlock records i e)).filter (fun p => p.toolUseId = k)
      = (l.filterMap (respOfBlock k i e)).map
          (fun t => mkPair ask t.1 t.2.1 t.2.2) := by
  induction l with
  | nil => rfl
  | cons b rest ih =>
    rcases pairOfBlock_cases records hreg i e b with
      ⟨h1, h2⟩ | ⟨p, h1, h2, h3⟩ | ⟨h1, h2, h3⟩
    · rw [List.filterMap_cons, List.filterMap_cons, h1, h2]
      exact ih
    · rw [List.filterMap_cons, List.filterMap_cons, h1, h3]
      rw [List.filter_cons]
      simp only [h2, decide_False, if_false]
      exact ih
    · rw [List.filterMap_cons, List.filterMap_cons, h1, h3]
      rw [List.filter_cons]
      simp only [h2, decide_True, if_true, List.map_cons]
      rw [ih]

lemma filter_extractQAPairs (records : List Entry) {k : String} {ask : AskData}
    (hreg : lookupAsk records k = some ask) :
    (extractQAPairs records).filter (fun p => p.toolUseId = k)
      = (responsesFor records k).map (fun t => mkPair ask t.1 t.2.1 t.2.2) := by
  unfold extractQAPairs responsesFor
  rw [List.filter_flatMap, List.map_flatMap]
  congr 1
  funext p
  unfold pairsOfEntry
  exact filter_filterMap_pairs records hreg p.1 p.2 (userBlocksOf p.2)

/-! Generic deletion lemmas: removing elements that contribute nothing
leaves a `filterMap` or `flatMap` unchanged. -/

lemma filterMap_filter_not {α β : Type} (f : α → Option β) (P : α → Prop)
    [DecidablePred P] (l : List α) (h : ∀ a, P a → f a = none) :
    (l.filter (fun a => ¬ P a)).filterMap f = l.filterMap f := by
  induction l with
  | nil => rfl
  | cons a l ih =>
    rw [List.filter_cons]
    by_cases hp : P a
    · rw [if_neg (by simp [hp])]
      rw [ih, List.filterMap_cons, h a hp]
    · rw [if_pos (by simp [hp])]
      rw [List.filterMap_cons, List.filterMap_cons, ih]

lemma flatMap_filter_not {α β : Type} (f : α → List β) (P : α → Prop)
    [DecidablePred P] (l : List α) (h : ∀ a, P a → f a = []) :
    (l.filter (fun a => ¬ P a)).flatMap f = l.flatMap f := by
  induction l with
  | nil => rfl
  | cons a l ih =>
    rw [List.filter_cons]
    by_cases hp : P a
    · rw [if_neg (by simp [hp])]
      rw [ih, List.flatMap_cons, h a hp, List.nil_append]
    · rw [if_pos (by simp [hp])]
      rw [List.flatMap_cons, List.flatMap_cons, ih]

/-! Facts about `withBlocks`-based record transforms. -/

lemma withBlocks_type (e : Entry) (f : List Block → List Block) :
    (withBlocks e f).type = e.type := by
  unfold withBlocks
  cases e.message with
  | none => rfl
  | some msg =>
    cases hc : msg.content with
    | none => simp [hc]
    | some mc => cases mc <;> simp [hc]

lemma withBlocks_timestamp (e : Entry) (f : List Block → List Block) :
    (withBlocks e f).timestamp = e.timestamp := by
  unfold withBlocks
  cases e.message with
  | none => rfl
  | some msg =>
    cases hc : msg.content with
    | none => simp [hc]
    | some mc => cases mc <;> simp [hc]

lemma withBlocks_toolUseResult (e : Entry) (f : List Block → List Block) :
    (withBlocks e f).toolUseResult = e.toolUseResult := by
  unfold withBlocks
  cases e.message with
  | none => rfl
  | some msg =>
    cases hc : msg.content with
    | none => simp [hc]
    | some mc => cases mc <;> simp [hc]

lemma arrayContent_withBlocks (e : Entry) (f : List Block → List Block) :
    arrayContent (withBlocks e f).message = (arrayContent e.message).map f := by
  unfold withBlocks arrayContent
  cases hm : e.message with
  | none => simp [hm]
  | some msg =>
    cases hc : msg.content with
    | none => simp [hm, hc]
    | some mc => cases mc <;> simp [hm, hc]

lemma resolveAnswers_withBlocks (e : Entry) (f : List Block → List Block)
    (b : Block) (qs : List Question) :
    resolveAnswers (withBlocks e f) b qs = resolveAnswers e b qs := by
  unfold resolveAnswers
  rw [withBlocks_toolUseResult]

lemma mkPair_withBlocks (ask : AskData) (i : Nat) (e : Entry)
    (f : List Block → List Block) (b : Block) :
    mkPair ask i (withBlocks e f) b = mkPair ask i e b := by
  unfold mkPair
  rw [withBlocks_timestamp, resolveAnswers_withBlocks]

lemma mkPair_scrubErrored (ask : AskData) (i : Nat) (e : Entry) (b : Block) :
    mkPair ask i (scrubErrored e) b = mkPair ask i e b :=
  mkPair_withBlocks ask i e _ b

/-! The error-scrub leaves the correlator's output unchanged. -/

lemma scrubErrored_type (e : Entry) : (scrubErrored e).type = e.type :=
  withBlocks_type e _

lemma scrubErrored_timestamp (e : Entry) :
    (scrubErrored e).timestamp = e.timestamp :=
  withBlocks_timestamp e _

lemma arrayContent_scrubErrored (e : Entry) :
    arrayContent (scrubErrored e).message
      = (arrayContent e.message).map
          (fun bs => bs.filter (fun b => ¬ (b.type = "tool_result" ∧ b.is_error))) :=
  arrayContent_withBlocks e _

lemma askOfBlock_scrubErrored (i : Nat) (e : Entry) :
    askOfBlock i (scrubErrored e) = askOfBlock i e := by
  funext b
  unfold askOfBlock
  rw [scrubErrored_timestamp]

lemma askBlocks_scrubErrored (i : Nat) (e : Entry) :
    askBlocks i (scrubErrored e) = askBlocks i e := by
  unfold askBlocks
  rw [scrubErrored_type, arrayContent_scrubErrored, askOfBlock_scrubErrored]
  by_cases ht : e.type = "assistant"
  · rw [if_pos ht, if_pos ht]
    cases harr : arrayContent e.message with
    | none => rfl
    | some bs =>
      simp only [Option.map_some']
      refine filterMap_filter_not (askOfBlock i e)
        (fun b => b.type = "tool_result" ∧ b.is_error = true) bs ?_
      intro b hb
      have hno : ¬ (b.type = "tool_use" ∧ b.name = some "AskUserQuestion") := by
        intro hcon
        rw [hcon.1] at hb
        exact absurd hb.1 (by decide)
      unfold askOfBlock
      rw [if_neg hno]
  · rw [if_neg ht, if_neg ht]

lemma askList_scrubErrored (records : List Entry) :
    askList (records.map scrubErrored) = askList records := by
  unfold askList
  have haux : ∀ (n : Nat) (l : List Entry),
      (List.enumFrom n (l.map scrubErrored)).flatMap (fun p => askBlocks p.1 p.2)
        = (List.enumFrom n l).flatMap (fun p => askBlocks p.1 p.2) := by
    intro n l
    induction l generalizing n with
    | nil => rfl
    | cons e rest ih =>
      rw [List.map_cons, List.enumFrom_cons, List.enumFrom_cons,
        List.flatMap_cons, List.flatMap_cons, ih]
      congr 1
      exact askBlocks_scrubErrored n e
  exact haux 0 records

lemma lookupAsk_scrubErrored (records : List Entry) (k : String) :
    lookupAsk (records.map scrubErrored) k = lookupAsk records k := by
  unfold lookupAsk
  rw [askList_scrubErrored]

lemma pairOfBlock_scrubErrored (records : List Entry) (i : Nat) (e : Entry)
    (b : Block) :
    pairOfBlock (records.map scrubErrored) i (scrubErrored e) b
      = pairOfBlock records i e b := by
  unfold pairOfBlock
  rw [lookupAsk_scrubErrored]
  by_cases ht : b.type = "tool_result"
  · rw [if_pos ht, if_pos ht]
    cases hL : lookupAsk records b.tool_use_id with
    | none => rfl
    | some ask =>
      by_cases herr : b.is_error
      · simp [herr]
      · simp only [herr, if_false, Bool.false_eq_true]
        rw [mkPair_scrubErrored]
  · rw [if_neg ht, if_neg ht]

lemma userBlocksOf_scrubErrored (e : Entry) :
    userBlocksOf (scrubErrored e)
      = (userBlocksOf e).filter (fun b => ¬ (b.type = "tool_result" ∧ b.is_error)) := by
  unfold userBlocksOf scrubErrored
  rw [withBlocks_type, arrayContent_withBlocks]
  by_cases ht : e.type = "user"
  · rw [if_pos ht, if_pos ht]
    cases harr : arrayContent e.message with
    | none => rfl
    | some bs => rfl
  · rw [if_neg ht, if_neg ht, List.filter_nil]

lemma pairsOfEntry_scrubErrored (records : List Entry) (i : Nat) (e : Entry) :
    pairsOfEntry (records.map scrubErrored) i (scrubErrored e)
      = pairsOfEntry records i e := by
  unfold pairsOfEntry
  rw [userBlocksOf_scrubErrored]
  have hfn : pairOfBlock (records.map scrubErrored) i (scrubErrored e)
      = pairOfBlock records i e := by
    funext b
    exact pairOfBlock_scrubErrored records i e b
  rw [hfn]
  refine filterMap_filter_not (pairOfBlock records i e)
    (fun b => b.type = "tool_result" ∧ b.is_error = true) (userBlocksOf e) ?_
  intro b hb
  unfold pairOfBlock
  rw [if_pos hb.1]
  cases lookupAsk records b.tool_use_id with
  | none => rfl
  | some ask => simp [hb.2]

lemma extractQAPairs_scrubErrored (records : List Entry) :
    extractQAPairs (records.map scrubErrored) = extractQAPairs records := by
  unfold extractQAPairs
  have haux : ∀ (n : Nat) (l : List Entry),
      (List.enumFrom n (l.map scrubErrored)).flatMap
          (fun p => pairsOfEntry (records.map scrubErrored) p.1 p.2)
        = (List.enumFrom n l).flatMap (fun p => pairsOfEntry records p.1 p.2) := by
    intro n l
    induction l generalizing n with
    | nil => rfl
    | cons e rest ih =>
      rw [List.map_cons, List.enumFrom_cons, List.enumFrom_cons,
        List.flatMap_cons, List.flatMap_cons, ih]
      congr 1
      exact pairsOfEntry_scrubErrored records n e
  exact haux 0 records

/-! Emitted pairs always come from registered ids and carry their
response record's sequence position. -/

lemma mem_pairsOfEntry_registered {records : List Entry} {i : Nat} {e : Entry}
    {p : QAPair} (hp : p ∈ pairsOfEntry records i e) :
    (lookupAsk records p.toolUseId).isSome ∧ p.answerLineIndex = i := by
  unfold pairsOfEntry at hp
  rw [List.mem_filterMap] at hp
  obtain ⟨b, -, hb⟩ := hp
  unfold pairOfBlock at hb
  split at hb
  · split at hb
    · rename_i ask hL
      split at hb
      · cases hb
      · rw [← Option.some.inj hb]
        refine ⟨?_, rfl⟩
        show (lookupAsk records ask.toolUseId).isSome
        rw [lookupAsk_key hL, hL]
        rfl
    · cases hb
  · cases hb

lemma extract_mem_registered {records : List Entry} {p : QAPair}
    (hp : p ∈ extractQAPairs records) :
    (lookupAsk records p.toolUseId).isSome := by
  unfold extractQAPairs at hp
  rw [List.mem_flatMap] at hp
  obtain ⟨q, -, hq⟩ := hp
  exact (mem_pairsOfEntry_registered hq).1

lemma pairsOfEntry_idx {records : List Entry} {i : Nat} {e : Entry}
    {p : QAPair} (hp : p ∈ pairsOfEntry records i e) :
    p.answerLineIndex = i :=
  (mem_pairsOfEntry_registered hp).2

lemma extract_aux_ge (records : List Entry) :
    ∀ (n : Nat) (l : List Entry) (p : QAPair),
      p ∈ (List.enumFrom n l).flatMap (fun q => pairsOfEntry records q.1 q.2) →
      n ≤ p.answerLineIndex := by
  intro n l
  induction l generalizing n with
  | nil => intro p hp; cases hp
  | cons e rest ih =>
    intro p hp
    rw [List.enumFrom_cons, List.flatMap_cons, List.mem_append] at hp
    rcases hp with hp | hp
    · rw [pairsOfEntry_idx hp]
    · exact Nat.le_of_succ_le (ih (n + 1) p hp)

lemma pairwise_const_le {α : Type} (f : α → Nat) (c : Nat) :
    ∀ l : List α, (∀ x ∈ l, f x = c) → l.Pairwise (fun a b => f a ≤ f b) := by
  intro l
  induction l with
  | nil => intro _; exact List.Pairwise.nil
  | cons a l ih =>
    intro h
    refine List.Pairwise.cons ?_ (ih (fun x hx => h x (List.mem_cons_of_mem _ hx)))
    intro b hb
    rw [h a (List.mem_cons_self a l), h b (List.mem_cons_of_mem _ hb)]

lemma extract_aux_sorted (records : List Entry) :
    ∀ (n : Nat) (l : List Entry),
      ((List.enumFrom n l).flatMap (fun q => pairsOfEntry records q.1 q.2)).Pairwise
        (fun p q => p.answerLineIndex ≤ q.answerLineIndex) := by
  intro n l
  induction l generalizing n with
  | nil => exact List.Pairwise.nil
  | cons e rest ih =>
    rw [List.enumFrom_cons, List.flatMap_cons, List.pairwise_append]
    refine ⟨pairwise_const_le _ n _ (fun p hp => pairsOfEntry_idx hp),
      ih (n + 1), ?_⟩
    intro a ha b hb
    rw [pairsOfEntry_idx ha]
    exact Nat.le_of_succ_le (extract_aux_ge records (n + 1) rest b hb)

/-! Shape lemmas for timeline entries: every emitted entry carries its
source record's sequence position and (non-empty) timestamp. -/

lemma assistantBlockTL_shape {i : Nat} {ts : String} {b : Block}
    {t : TimelineEntry} (ht : t ∈ assistantBlockTL i ts b) :
    t.ts = ts ∧ t.idx = i := by
  unfold assistantBlockTL at ht
  split at ht
  · cases ht
  · split at ht
    · split at ht
      · cases ht
      · rw [List.mem_singleton] at ht; subst ht; exact ⟨rfl, rfl⟩
    · split at ht
      · split at ht
        · rw [List.mem_singleton] at ht; subst ht; exact ⟨rfl, rfl⟩
        · rw [List.mem_singleton] at ht; subst ht; exact ⟨rfl, rfl⟩
      · cases ht

lemma userBlockTL_shape {i : Nat} {ts : String} {e : Entry} {b : Block}
    {t : TimelineEntry} (ht : t ∈ userBlockTL i ts e b) :
    t.ts = ts ∧ t.idx = i := by
  unfold userBlockTL at ht
  split at ht
  · split at ht
    · cases ht
    · split at ht
      · cases ht
      · rw [List.mem_singleton] at ht; subst ht; exact ⟨rfl, rfl⟩
  · split at ht
    · split at ht
      · rw [List.mem_singleton] at ht; subst ht; exact ⟨rfl, rfl⟩
      · cases ht
    · cases ht

lemma entryTL_shape {i : Nat} {e : Entry} {t : TimelineEntry}
    (ht : t ∈ entryTL i e) :
    t.idx = i ∧ e.timestamp = some t.ts ∧ ¬ t.ts = "" := by
  unfold entryTL at ht
  split at ht
  · cases ht
  · split at ht
    · cases ht
    · rename_i hmsg htr
      rw [not_not] at htr
      cases hts : e.timestamp with
      | none =>
        exfalso
        unfold strTruthy at htr
        rw [hts] at htr
        simp at htr
      | some s =>
        have hne : ¬ s = "" := by
          unfold strTruthy at htr
          rw [hts] at htr
          simpa using htr
        rw [hts] at ht
        split at ht
        · cases ht
        · split at ht
          · split at ht
            · rw [List.mem_flatMap] at ht
              obtain ⟨b, -, hb⟩ := ht
              obtain ⟨h1, h2⟩ := assistantBlockTL_shape hb
              exact ⟨h2, by simp [hts, h1], by rw [h1]; exact hne⟩
            · cases ht
          · split at ht
            · split at ht
              · split at ht
                · split at ht
                  · rw [List.mem_singleton] at ht
                    subst ht
                    exact ⟨rfl, by simp [hts, TimelineEntry.ts], hne⟩
                  · cases ht
                · rw [List.mem_flatMap] at ht
                  obtain ⟨b, -, hb⟩ := ht
                  obtain ⟨h1, h2⟩ := userBlockTL_shape hb
                  exact ⟨h2, by simp [hts, h1], by rw [h1]; exact hne⟩
                · cases ht
              · cases ht
            · cases ht

lemma buildSessionTimeline_src {records : List Entry} {t : TimelineEntry}
    (ht : t ∈ buildSessionTimeline records) :
    ∃ e, records[t.idx]? = some e ∧ e.timestamp = some t.ts ∧ ¬ t.ts = "" := by
  unfold buildSessionTimeline at ht
  rw [List.mem_flatMap] at ht
  obtain ⟨q, hq, hqt⟩ := ht
  obtain ⟨i, e⟩ := q
  obtain ⟨hidx, hts, hne⟩ := entryTL_shape hqt
  obtain ⟨-, hlt, hget⟩ := List.mem_enumFrom hq
  refine ⟨e, ?_, hts, hne⟩
  rw [hidx]
  have hlt' : i < records.length := by simpa using hlt
  rw [List.getElem?_eq_getElem hlt', hget]
  simp

/-! The narrative-noise scrub leaves the timeline unchanged, and every
emitted narrative entry meets the minimum length. -/

lemma withBlocks_message_isNone (e : Entry) (f : List Block → List Block) :
    (withBlocks e f).message.isNone = e.message.isNone := by
  unfold withBlocks
  cases hm : e.message with
  | none => simp [hm]
  | some msg =>
    cases hc : msg.content with
    | none => simp [hm, hc]
    | some mc => cases mc <;> simp [hm, hc]

lemma assistantBlockTL_noise {e : Entry} (he : e.type = "assistant") {b : Block}
    (hb : narrativeNoiseB e b = true) (i : Nat) (ts : String) :
    assistantBlockTL i ts b = [] := by
  simp only [narrativeNoiseB, decide_eq_true_eq] at hb
  rw [he] at hb
  rw [if_pos rfl] at hb
  obtain ⟨htxt, hrest⟩ := hb
  have hnth : ¬ b.type = "thinking" := by rw [htxt]; decide
  have hntu : ¬ b.type = "tool_use" := by rw [htxt]; decide
  unfold assistantBlockTL
  rcases hrest with htr | hlen
  · have hno : ¬ (b.type = "text" ∧ trimTruthy b.text) := fun hc => htr hc.2
    rw [if_neg hnth, if_neg hno, if_neg hntu]
  · by_cases htrr : trimTruthy b.text
    · rw [if_neg hnth, if_pos ⟨htxt, htrr⟩, if_pos hlen]
    · have hno : ¬ (b.type = "text" ∧ trimTruthy b.text) := fun hc => htrr hc.2
      rw [if_neg hnth, if_neg hno, if_neg hntu]

lemma userBlockTL_noise {e : Entry} (he : e.type = "user") {b : Block}
    (hb : narrativeNoiseB e b = true) (i : Nat) (ts : String) (e' : Entry) :
    userBlockTL i ts e' b = [] := by
  simp only [narrativeNoiseB, decide_eq_true_eq] at hb
  rw [he] at hb
  rw [if_neg (show ¬ ("user" : String) = "assistant" by decide), if_pos rfl] at hb
  obtain ⟨htxt, hrest⟩ := hb
  unfold userBlockTL
  rw [if_pos htxt]
  rcases hrest with hlen | hboil
  · rw [if_pos hlen]
  · by_cases hlen : (stripTags (b.text.getD "")).length < 3
    · rw [if_pos hlen]
    · rw [if_neg hlen, if_pos hboil]

lemma entryTL_scrubNarrative (i : Nat) (e : Entry) :
    entryTL i (scrubNarrative e) = entryTL i e := by
  cases hm : e.message with
  | none =>
    rw [show scrubNarrative e = e by unfold scrubNarrative withBlocks; simp [hm]]
  | some msg =>
    cases hc : msg.content with
    | none =>
      rw [show scrubNarrative e = e by
        unfold scrubNarrative withBlocks; simp [hm, hc]]
    | some mc =>
      cases mc with
      | str s =>
        rw [show scrubNarrative e = e by
          unfold scrubNarrative withBlocks; simp [hm, hc]]
      | blocks bs =>
        have hse : scrubNarrative e =
            { e with message := some (Message.mk (some (MsgContent.blocks
                (bs.filter (fun b => ¬ narrativeNoiseB e b))))) } := by
          unfold scrubNarrative withBlocks
          simp [hm, hc]
        rw [hse]
        unfold entryTL
        simp only [hm, Option.isNone_some, Bool.false_eq_true, if_false]
        by_cases hts : strTruthy e.timestamp
        · simp only [hts, not_true, if_false]
          by_cases hsnap : e.type = "file-history-snapshot"
          · rw [if_pos hsnap, if_pos hsnap]
          · rw [if_neg hsnap, if_neg hsnap]
            by_cases ha : e.type = "assistant"
            · rw [if_pos ha, if_pos ha]
              have harr : arrayContent (some msg) = some bs := by
                unfold arrayContent; simp [hc]
              have harrL : arrayContent (some (Message.mk (some (MsgContent.blocks
                    (bs.filter (fun b => ¬ narrativeNoiseB e b))))))
                  = some (bs.filter (fun b => ¬ narrativeNoiseB e b)) := rfl
              rw [harrL, harr]
              exact flatMap_filter_not _ (fun b => narrativeNoiseB e b = true) bs
                (fun b hb => assistantBlockTL_noise ha hb i _)
            · rw [if_neg ha, if_neg ha]
              by_cases hu : e.type = "user"
              · rw [if_pos hu, if_pos hu]
                simp only [hm, hc]
                have hfn : userBlockTL i (e.timestamp.getD "")
                    ({ e with message := some (Message.mk (some (MsgContent.blocks
                      (bs.filter (fun b => ¬ narrativeNoiseB e b))))) } : Entry)
                    = userBlockTL i (e.timestamp.getD "") e := rfl
                rw [hfn]
                exact flatMap_filter_not _ (fun b => narrativeNoiseB e b = true) bs
                  (fun b hb => userBlockTL_noise hu hb i _ e)
              · rw [if_neg hu, if_neg hu]
        · rw [if_pos hts, if_pos hts]

lemma buildSessionTimeline_scrubNarrative (records : List Entry) :
    buildSessionTimeline (records.map scrubNarrative)
      = buildSessionTimeline records := by
  unfold buildSessionTimeline
  have haux : ∀ (n : Nat) (l : List Entry),
      (List.enumFrom n (l.map scrubNarrative)).flatMap (fun p => entryTL p.1 p.2)
        = (List.enumFrom n l).flatMap (fun p => entryTL p.1 p.2) := by
    intro n l
    induction l generalizing n with
    | nil => rfl
    | cons e rest ih =>
      rw [List.map_cons, List.enumFrom_cons, List.enumFrom_cons,
        List.flatMap_cons, List.flatMap_cons, ih]
      congr 1
      exact entryTL_scrubNarrative n e
  exact haux 0 records

lemma assistantBlockTL_lenOK {i : Nat} {ts : String} {b : Block}
    {t : TimelineEntry} (ht : t ∈ assistantBlockTL i ts b) :
    narrativeLenOK t := by
  unfold assistantBlockTL at ht
  split at ht
  · cases ht
  · split at ht
    · split at ht
      · cases ht
      · rename_i hlen
        rw [List.mem_singleton] at ht
        subst ht
        unfold narrativeLenOK
        omega
    · split at ht
      · split at ht
        · rw [List.mem_singleton] at ht; subst ht; trivial
        · rw [List.mem_singleton] at ht; subst ht; trivial
      · cases ht

lemma userBlockTL_lenOK {i : Nat} {ts : String} {e : Entry} {b : Block}
    {t : TimelineEntry} (ht : t ∈ userBlockTL i ts e b) :
    narrativeLenOK t := by
  unfold userBlockTL at ht
  split at ht
  · split at ht
    · cases ht
    · split at ht
      · cases ht
      · rename_i hlen _
        rw [List.mem_singleton] at ht
        subst ht
        unfold narrativeLenOK
        omega
  · split at ht
    · split at ht
      · rw [List.mem_singleton] at ht; subst ht; trivial
      · cases ht
    · cases ht

lemma entryTL_lenOK {i : Nat} {e : Entry} {t : TimelineEntry}
    (ht : t ∈ entryTL i e) : narrativeLenOK t := by
  unfold entryTL at ht
  split at ht
  · cases ht
  · split at ht
    · cases ht
    · split at ht
      · cases ht
      · split at ht
        · split at ht
          · rw [List.mem_flatMap] at ht
            obtain ⟨b, -, hb⟩ := ht
            exact assistantBlockTL_lenOK hb
          · cases ht
        · split at ht
          · split at ht
            · split at ht
              · split at ht
                · rename_i hlen
                  rw [List.mem_singleton] at ht
                  subst ht
                  exact hlen
                · cases ht
              · rw [List.mem_flatMap] at ht
                obtain ⟨b, -, hb⟩ := ht
                exact userBlockTL_lenOK hb
              · cases ht
            · cases ht
          · cases ht

lemma buildSessionTimeline_lenOK {records : List Entry} {t : TimelineEntry}
    (ht : t ∈ buildSessionTimeline records) : narrativeLenOK t := by
  unfold buildSessionTimeline at ht
  rw [List.mem_flatMap] at ht
  obtain ⟨q, -, hq⟩ := ht
  exact entryTL_lenOK hq

/-! The fallback parser's key discipline: keys come from the supplied
question list and stay unique. -/

lemma map_fst_replace (m : List (String × String)) (k v : String) :
    (m.map (fun p => if p.1 = k then (k, v) else p)).map Prod.fst
      = m.map Prod.fst := by
  induction m with
  | nil => rfl
  | cons p m ih =>
    rw [List.map_cons, List.map_cons, List.map_cons]
    by_cases hp : p.1 = k
    · rw [if_pos hp, ih]
      simp [hp]
    · rw [if_neg hp, ih]

lemma objSet_fst_cases (m : List (String × String)) (k v : String) :
    (objSet m k v).map Prod.fst = m.map Prod.fst
    ∨ ((objSet m k v).map Prod.fst = m.map Prod.fst ++ [k]
        ∧ ¬ k ∈ m.map Prod.fst) := by
  unfold objSet
  by_cases h : m.any (fun p => p.1 = k)
  · left
    rw [if_pos h]
    exact map_fst_replace m k v
  · right
    rw [if_neg h]
    constructor
    · rw [List.map_append]
      rfl
    · intro hk
      apply h
      rw [List.mem_map] at hk
      obtain ⟨p, hp, hpk⟩ := hk
      rw [List.any_eq_true]
      exact ⟨p, hp, by simp [hpk]⟩

lemma answerStep_keys (cs : List Char) (m : List (String × String))
    (q : Question) :
    (answerStep cs m q).map Prod.fst = m.map Prod.fst
    ∨ ((answerStep cs m q).map Prod.fst = m.map Prod.fst ++ [q.question]
        ∧ ¬ q.question ∈ m.map Prod.fst) := by
  unfold answerStep
  split
  · left; rfl
  · exact objSet_fst_cases m q.question _

lemma foldl_answerStep_keys (cs : List Char) :
    ∀ (qs : List Question) (m : List (String × String)),
      (∀ x ∈ ((qs.foldl (answerStep cs) m).map Prod.fst),
        x ∈ m.map Prod.fst ∨ x ∈ qs.map Question.question)
      ∧ ((m.map Prod.fst).Nodup →
          ((qs.foldl (answerStep cs) m).map Prod.fst).Nodup) := by
  intro qs
  induction qs with
  | nil =>
    intro m
    exact ⟨fun x hx => Or.inl hx, fun h => h⟩
  | cons q qs ih =>
    intro m
    constructor
    · intro x hx
      rw [List.foldl_cons] at hx
      rcases (ih (answerStep cs m q)).1 x hx with h | h
      · rcases answerStep_keys cs m q with he | ⟨he, -⟩
        · rw [he] at h
          exact Or.inl h
        · rw [he, List.mem_append] at h
          rcases h with h | h
          · exact Or.inl h
          · right
            rw [List.mem_singleton] at h
            rw [h, List.map_cons]
            exact List.mem_cons_self _ _
      · right
        rw [List.map_cons]
        exact List.mem_cons_of_mem _ h
    · intro hnd
      rw [List.foldl_cons]
      apply (ih (answerStep cs m q)).2
      rcases answerStep_keys cs m q with he | ⟨he, hnk⟩
      · rw [he]; exact hnd
      · rw [he]
        simp [List.nodup_append, hnd, hnk]

/-! The stable comparator sort: permutation, sortedness under a
transitive and total relation, and congruence for comparators that
agree on the list's elements. -/

lemma insertCmp_perm {α : Type} (le : α → α → Bool) (x : α) (l : List α) :
    List.Perm (insertCmp le x l) (x :: l) := by
  induction l with
  | nil => exact List.Perm.refl _
  | cons y ys ih =>
    unfold insertCmp
    by_cases h : le x y = true
    · rw [if_pos h]
    · rw [if_neg h]
      exact (ih.cons y).trans (List.Perm.swap x y ys)

lemma sortCmp_perm {α : Type} (le : α → α → Bool) (l : List α) :
    List.Perm (sortCmp le l) l := by
  induction l with
  | nil => exact List.Perm.refl _
  | cons x xs ih =>
    exact (insertCmp_perm le x (sortCmp le xs)).trans (ih.cons x)

lemma insertCmp_pairwise {α : Type} (le : α → α → Bool)
    (htrans : ∀ a b c, le a b = true → le b c = true → le a c = true)
    (htot : ∀ a b, le a b = true ∨ le b a = true)
    (x : α) (l : List α) (hl : l.Pairwise (fun a b => le a b = true)) :
    (insertCmp le x l).Pairwise (fun a b => le a b = true) := by
  induction l with
  | nil => simp [insertCmp]
  | cons y ys ih =>
    unfold insertCmp
    rw [List.pairwise_cons] at hl
    by_cases h : le x y = true
    · rw [if_pos h]
      refine List.Pairwise.cons ?_ (List.Pairwise.cons hl.1 hl.2)
      intro b hb
      rcases List.mem_cons.mp hb with rfl | hb
      · exact h
      · exact htrans x y b h (hl.1 b hb)
    · rw [if_neg h]
      have hyx : le y x = true := (htot x y).resolve_left h
      refine List.Pairwise.cons ?_ (ih hl.2)
      intro b hb
      have hb' : b ∈ x :: ys := (insertCmp_perm le x ys).mem_iff.mp hb
      rcases List.mem_cons.mp hb' with rfl | hb'
      · exact hyx
      · exact hl.1 b hb'

lemma sortCmp_pairwise {α : Type} (le : α → α → Bool)
    (htrans : ∀ a b c, le a b = true → le b c = true → le a c = true)
    (htot : ∀ a b, le a b = true ∨ le b a = true) (l : List α) :
    (sortCmp le l).Pairwise (fun a b => le a b = true) := by
  induction l with
  | nil => exact List.Pairwise.nil
  | cons x xs ih => exact insertCmp_pairwise le htrans htot x _ ih

lemma insertCmp_congr {α : Type} (le le' : α → α → Bool) (x : α) (l : List α)
    (h : ∀ b ∈ l, le x b = le' x b) :
    insertCmp le x l = insertCmp le' x l := by
  induction l with
  | nil => rfl
  | cons y ys ih =>
    unfold insertCmp
    rw [h y (List.mem_cons_self y ys)]
    by_cases hy : le' x y = true
    · rw [if_pos hy, if_pos hy]
    · rw [if_neg hy, if_neg hy,
        ih (fun b hb => h b (List.mem_cons_of_mem _ hb))]

lemma sortCmp_congr {α : Type} (le le' : α → α → Bool) (l : List α)
    (h : ∀ a ∈ l, ∀ b ∈ l, le a b = le' a b) :
    sortCmp le l = sortCmp le' l := by
  induction l with
  | nil => rfl
  | cons x xs ih =>
    unfold sortCmp
    rw [ih (fun a ha b hb =>
      h a (List.mem_cons_of_mem _ ha) b (List.mem_cons_of_mem _ hb))]
    apply insertCmp_congr
    intro b hb
    have hb' : b ∈ xs := (sortCmp_perm le' xs).mem_iff.mp hb
    exact h x (List.mem_cons_self _ _) b (List.mem_cons_of_mem _ hb')

/-! Aggregation helpers. -/

lemma length_filter_partition (l : List Session) :
    l.length = (l.filter (fun s => 0 < s.qaPairs.length)).length
      + (l.filter (fun s => s.qaPairs.length = 0)).length := by
  induction l with
  | nil => rfl
  | cons s rest ih =>
    rw [List.filter_cons, List.filter_cons]
    by_cases h : 0 < s.qaPairs.length
    · rw [if_pos (by simpa using h), if_neg (by simpa using Nat.pos_iff_ne_zero.mp h)]
      simp only [List.length_cons, ih]
      omega
    · rw [if_neg (by simpa using h), if_pos (by simpa using Nat.eq_zero_of_not_pos h)]
      simp only [List.length_cons, ih]
      omega

lemma distinctList_mem :
    ∀ (l : List String) (x : String), x ∈ l → x ∈ distinctList l := by
  have haux : ∀ (l : List String) (acc : List String) (x : String),
      x ∈ acc ∨ x ∈ l →
      x ∈ l.foldl (fun acc y => if y ∈ acc then acc else acc ++ [y]) acc := by
    intro l
    induction l with
    | nil =>
      intro acc x hx
      rcases hx with hx | hx
      · exact hx
      · cases hx
    | cons y rest ih =>
      intro acc x hx
      rw [List.foldl_cons]
      apply ih
      by_cases hy : y ∈ acc
      · rw [if_pos hy]
        rcases hx with hx | hx
        · exact Or.inl hx
        · rcases List.mem_cons.mp hx with rfl | hx
          · exact Or.inl hy
          · exact Or.inr hx
      · rw [if_neg hy]
        rcases hx with hx | hx
        · exact Or.inl (List.mem_append_left _ hx)
        · rcases List.mem_cons.mp hx with rfl | hx
          · exact Or.inl (List.mem_append_right _ (List.mem_singleton.mpr rfl))
          · exact Or.inr hx
  intro l x hx
  exact haux l [] x (Or.inr hx)

lemma addGroup_mem {g : List (String × List Session)} {k : String} {s : Session}
    {p : String × List Session} {x : Session}
    (hp : p ∈ addGroup g k s) (hx : x ∈ p.2) :
    (∃ q ∈ g, x ∈ q.2) ∨ x = s := by
  unfold addGroup at hp
  split at hp
  · rw [List.mem_map] at hp
    obtain ⟨q, hq, hqp⟩ := hp
    by_cases hk : q.1 = k
    · rw [if_pos hk] at hqp
      rw [← hqp] at hx
      rcases List.mem_append.mp hx with hx | hx
      · exact Or.inl ⟨q, hq, hx⟩
      · exact Or.inr (List.mem_singleton.mp hx)
    · rw [if_neg hk] at hqp
      rw [← hqp] at hx
      exact Or.inl ⟨q, hq, hx⟩
  · rcases List.mem_append.mp hp with hp | hp
    · exact Or.inl ⟨p, hp, hx⟩
    · rw [List.mem_singleton] at hp
      rw [hp] at hx
      exact Or.inr (List.mem_singleton.mp hx)

lemma foldl_addGroup_mem :
    ∀ (l : List Session) (acc : List (String × List Session))
      (p : String × List Session),
      p ∈ l.foldl (fun acc s => addGroup acc s.meta.projectName s) acc →
      ∀ x ∈ p.2, (∃ q ∈ acc, x ∈ q.2) ∨ x ∈ l := by
  intro l
  induction l with
  | nil =>
    intro acc p hp x hx
    exact Or.inl ⟨p, hp, hx⟩
  | cons s rest ih =>
    intro acc p hp x hx
    rw [List.foldl_cons] at hp
    rcases ih _ p hp x hx with ⟨q, hq, hyq⟩ | hxl
    · rcases addGroup_mem hq hyq with ⟨q', hq', h⟩ | rfl
      · exact Or.inl ⟨q', hq', h⟩
      · exact Or.inr (List.mem_cons_self _ _)
    · exact Or.inr (List.mem_cons_of_mem _ hxl)

lemma groupByProject_mem {l : List Session} {p : String × List Session}
    {x : Session} (hp : p ∈ groupByProject l) (hx : x ∈ p.2) : x ∈ l := by
  unfold groupByProject at hp
  rcases foldl_addGroup_mem l [] p hp x hx with ⟨q, hq, -⟩ | h
  · cases hq
  · exact h

lemma sessionCmpLe_eq_startLe {a b : Session}
    (ha : (parseISOms a.meta.startTime).isSome = true)
    (hb : (parseISOms b.meta.startTime).isSome = true) :
    sessionCmpLe a b = startLe a b := by
  obtain ⟨da, hda⟩ := Option.isSome_iff_exists.mp ha
  obtain ⟨db, hdb⟩ := Option.isSome_iff_exists.mp hb
  unfold sessionCmpLe startLe
  simp only [hda, hdb, Option.getD_some]
  rw [decide_eq_decide]
  exact sub_nonpos

lemma startLe_trans (a b c : Session) :
    startLe a b = true → startLe b c = true → startLe a c = true := by
  unfold startLe
  simp only [decide_eq_true_eq]
  exact fun h1 h2 => le_trans h2 h1

lemma startLe_total (a b : Session) :
    startLe a b = true ∨ startLe b a = true := by
  unfold startLe
  simp only [decide_eq_true_eq]
  exact (le_total _ _).symm

lemma enumFrom_mem_of_getElem {α : Type} :
    ∀ (l : List α) (n i : Nat) (x : α), l[i]? = some x →
      (n + i, x) ∈ List.enumFrom n l := by
  intro l
  induction l with
  | nil => intro n i x h; simp at h
  | cons a l ih =>
    intro n i x h
    cases i with
    | zero =>
      rw [List.getElem?_cons_zero] at h
      rw [List.enumFrom_cons, Option.some.inj h]
      exact List.mem_cons_self _ _
    | succ j =>
      rw [List.getElem?_cons_succ] at h
      rw [List.enumFrom_cons]
      refine List.mem_cons_of_mem _ ?_
      have hj := ih (n + 1) j x h
      have heq : n + 1 + j = n + (j + 1) := by omega
      rw [heq] at hj
      exact hj

lemma message_ne_none_of_arrayContent {e : Entry} {bs : List Block}
    (h : arrayContent e.message = some bs) : ¬ e.message.isNone = true := by
  cases hm : e.message with
  | none =>
    unfold arrayContent at h
    rw [hm] at h
    simp at h
  | some msg => simp [hm]

lemma jsSlice0_len (s : String) (n : Nat) : (jsSlice0 s n).length ≤ n := by
  unfold jsSlice0
  show (s.data.take n).length ≤ n
  rw [List.length_take]
  exact min_le_left _ _

/-! The claim theorems. -/

/-- Claim C1: for every parsed record sequence and every well-formed
request/response pair sharing a correlation id `k` (the request
registered under `k` after pass 1, and exactly one non-errored
`tool_result` response carrying `k`), `extractQAPairs` emits exactly
one Q/A pair for `k`, joining the request's question list with the
response's resolved answers. -/
theorem correlator_emits_unique_pair (records : List Entry) (k : String)
    (ask : AskData) (hreg : lookupAsk records k = some ask)
    (i : Nat) (e : Entry) (b : Block)
    (hresp : responsesFor records k = [(i, e, b)]) :
    (extractQAPairs records).filter (fun p => p.toolUseId = k)
      = [{ questions := ask.questions,
           answers := resolveAnswers e b ask.questions,
           askTimestamp := ask.timestamp,
           answerTimestamp := e.timestamp,
           askLineIndex := ask.lineIndex,
           answerLineIndex := i,
           toolUseId := ask.toolUseId }] := by
  rw [filter_extractQAPairs records hreg, hresp]
  rfl

/-- Witness for C1 at a concrete one-request, one-response sequence. -/
theorem correlator_emits_unique_pair_witness :
    lookupAsk exC1Records "X" = some exC1Ask
    ∧ responsesFor exC1Records "X" = [(1, exRespEntry, exRespBlock)]
    ∧ (extractQAPairs exC1Records).filter (fun p => p.toolUseId = "X")
      = [{ questions := exC1Ask.questions,
           answers := resolveAnswers exRespEntry exRespBlock exC1Ask.questions,
           askTimestamp := exC1Ask.timestamp,
           answerTimestamp := exRespEntry.timestamp,
           askLineIndex := exC1Ask.lineIndex,
           answerLineIndex := 1,
           toolUseId := exC1Ask.toolUseId }] :=
  ⟨by decide, by decide,
    correlator_emits_unique_pair exC1Records "X" exC1Ask (by decide)
      1 exRespEntry exRespBlock (by decide)⟩

/-- Claim C2: a response block whose correlation id matches no
registered request yields no Q/A pair (and the total function cannot
fail), and error-flagged response blocks never contribute a pair:
deleting every error-flagged `tool_result` block leaves the
correlator's output unchanged. -/
theorem unmatched_and_errored_skipped :
    (∀ (records : List Entry) (k : String), lookupAsk records k = none →
      (extractQAPairs records).filter (fun p => p.toolUseId = k) = [])
    ∧ (∀ records : List Entry,
        extractQAPairs (records.map scrubErrored) = extractQAPairs records) := by
  constructor
  · intro records k hnone
    rw [List.filter_eq_nil_iff]
    intro p hp
    simp only [decide_eq_true_eq]
    intro hk
    have hreg := extract_mem_registered hp
    rw [hk, hnone] at hreg
    simp at hreg
  · exact extractQAPairs_scrubErrored

/-- Witness for C2 at a concrete sequence and an unregistered id. -/
theorem unmatched_and_errored_skipped_witness :
    lookupAsk exC1Records "Z" = none
    ∧ (extractQAPairs exC1Records).filter (fun p => p.toolUseId = "Z") = [] :=
  ⟨by decide, unmatched_and_errored_skipped.1 exC1Records "Z" (by decide)⟩

/-- Claim C3: the fallback answer normalizer resolves each question's
answer by locating `"<question>"="` and cutting at the next `", "`,
else at the last quotation mark, else at the end of the string; on
`"Color?"="blue", "Size?"="large"` with questions `Color?`, `Size?` it
yields both answers, and on `"Color?"="blue and green"` with question
`Color?` it yields the whole phrase. -/
theorem normalizer_fallback_examples :
    parseAnswersFromContent (.str "\"Color?\"=\"blue\", \"Size?\"=\"large\"")
        [{ header := "", question := "Color?", options := [] },
         { header := "", question := "Size?", options := [] }]
      = [("Color?", "blue"), ("Size?", "large")]
    ∧ parseAnswersFromContent (.str "\"Color?\"=\"blue and green\"")
        [{ header := "", question := "Color?", options := [] }]
      = [("Color?", "blue and green")] :=
  ⟨by decide, by decide⟩

/-- Counterexample to claim C4: `extractQAPairs` never consults
timestamps, so a request/response pair whose records both lack a
timestamp still yields a Q/A pair (with absent timestamps), while the
claim asserts timestamp-less records are never eligible for
correlation. -/
theorem timestampless_correlated_cex :
    extractQAPairs exC4Records
      = [{ questions := [exQProceed],
           answers := [("Proceed?", "Yes")],
           askTimestamp := none,
           answerTimestamp := none,
           askLineIndex := 0,
           answerLineIndex := 1,
           toolUseId := "X" }]
    ∧ buildSessionTimeline exC4Records = [] :=
  ⟨by decide, by decide⟩

/-- Claim C4 as amended: a record with no (truthy) timestamp is never
eligible for timeline placement — every timeline entry's source record
carries that entry's non-empty timestamp — and processing is total, but
such records remain eligible for correlation. -/
theorem timestampless_timeline_only (records : List Entry)
    (t : TimelineEntry) (ht : t ∈ buildSessionTimeline records) :
    ∃ e, records[t.idx]? = some e ∧ e.timestamp = some t.ts ∧ ¬ t.ts = "" :=
  buildSessionTimeline_src ht

/-- Witness for the amended C4 at a concrete record sequence. -/
theorem timestampless_timeline_only_witness :
    ((TimelineEntry.ask_user_question "2024-01-01T00:00:00.000Z" "X"
        [exQProceed] 0) ∈ buildSessionTimeline [exAskEntry])
    ∧ ∃ e, [exAskEntry][(TimelineEntry.ask_user_question
        "2024-01-01T00:00:00.000Z" "X" [exQProceed] 0).idx]? = some e
        ∧ e.timestamp = some (TimelineEntry.ask_user_question
            "2024-01-01T00:00:00.000Z" "X" [exQProceed] 0).ts
        ∧ ¬ (TimelineEntry.ask_user_question
            "2024-01-01T00:00:00.000Z" "X" [exQProceed] 0).ts = "" :=
  ⟨by decide, timestampless_timeline_only [exAskEntry] _ (by decide)⟩

/-- Claim C5 evaluated at its failing input: the timeline keeps any
`tool_result` block whose record carries a `toolUseResult` — here the
generic result of an ordinary `Bash` call, whose id `B1` matches no
registered structured-question request — contradicting both the claim
and the code's own comment that only `AskUserQuestion` responses are
kept. -/
theorem generic_tool_result_emitted_eval :
    buildSessionTimeline exC5Records
      = [TimelineEntry.tool_use "2024-01-01T00:00:00.000Z" (some "Bash") "ls" 0,
         TimelineEntry.user_answer "2024-01-01T00:01:00.000Z" "B1" [] 1]
    ∧ lookupAsk exC5Records "B1" = none :=
  ⟨by decide, by decide⟩

/-- Claim C6: the correlator's output is ordered by the sequence
position of each pair's response record — the emitted
`answerLineIndex` sequence is monotonically non-decreasing for every
parsed record sequence. -/
theorem pairs_ordered_by_answer_position (records : List Entry) :
    ((extractQAPairs records).map QAPair.answerLineIndex).Pairwise (· ≤ ·) := by
  rw [List.pairwise_map]
  exact extract_aux_sorted records 0 records

/-- Claim C7: the aggregate view excludes zero-pair sessions from the
grouped/sorted report while counting them in the totals, and the
reported sessions are sorted by parsed start time, descending (stated
under the hypothesis that every reported session's start time
parses). -/
theorem aggregate_view_totals_and_order (allSessions : List Session)
    (hp : ∀ s ∈ allSessions, 0 < s.qaPairs.length →
      (parseISOms s.meta.startTime).isSome = true) :
    (buildViewModel allSessions).totalSessions
        = (buildViewModel allSessions).qaSessionCount
          + (allSessions.filter (fun s => s.qaPairs.length = 0)).length
    ∧ (buildViewModel allSessions).totalProjects
        = (distinctList (allSessions.map (fun s => s.meta.projectName))).length
    ∧ (∀ s ∈ allSessions, s.meta.projectName
        ∈ distinctList (allSessions.map (fun s => s.meta.projectName)))
    ∧ List.Perm (buildViewModel allSessions).sessions
        (allSessions.filter (fun s => 0 < s.qaPairs.length))
    ∧ (∀ p ∈ (buildViewModel allSessions).grouped, ∀ s ∈ p.2,
        s ∈ allSessions ∧ 0 < s.qaPairs.length)
    ∧ (buildViewModel allSessions).sessions.Pairwise
        (fun a b => startLe a b = true) := by
  refine ⟨length_filter_partition allSessions, rfl, ?_, ?_, ?_, ?_⟩
  · intro s hs
    exact distinctList_mem _ _ (List.mem_map_of_mem _ hs)
  · show List.Perm
      (sortCmp sessionCmpLe (allSessions.filter (fun s => 0 < s.qaPairs.length)))
      (allSessions.filter (fun s => 0 < s.qaPairs.length))
    exact sortCmp_perm _ _
  · intro p hp' s hs
    have hmem : s ∈ sortCmp sessionCmpLe
        (allSessions.filter (fun s => 0 < s.qaPairs.length)) :=
      groupByProject_mem hp' hs
    have hfil : s ∈ allSessions.filter (fun s => 0 < s.qaPairs.length) :=
      (sortCmp_perm _ _).mem_iff.mp hmem
    have h2 := List.mem_filter.mp hfil
    exact ⟨h2.1, by simpa using h2.2⟩
  · show (sortCmp sessionCmpLe
        (allSessions.filter (fun s => 0 < s.qaPairs.length))).Pairwise
        (fun a b => startLe a b = true)
    have hagree : ∀ a ∈ allSessions.filter (fun s => 0 < s.qaPairs.length),
        ∀ b ∈ allSessions.filter (fun s => 0 < s.qaPairs.length),
        sessionCmpLe a b = startLe a b := by
      intro a ha b hb
      have hpa := hp a (List.mem_filter.mp ha).1
        (by simpa using (List.mem_filter.mp ha).2)
      have hpb := hp b (List.mem_filter.mp hb).1
        (by simpa using (List.mem_filter.mp hb).2)
      exact sessionCmpLe_eq_startLe hpa hpb
    rw [sortCmp_congr sessionCmpLe startLe _ hagree]
    exact sortCmp_pairwise startLe startLe_trans startLe_total _

set_option maxRecDepth 8000 in
/-- Witness for C7 at a concrete session collection with a zero-pair
session. -/
theorem aggregate_view_totals_and_order_witness :
    (∀ s ∈ exSessions, 0 < s.qaPairs.length →
      (parseISOms s.meta.startTime).isSome = true)
    ∧ (buildViewModel exSessions).sessions.Pairwise
        (fun a b => startLe a b = true) :=
  ⟨by decide,
    (aggregate_view_totals_and_order exSessions (by decide)).2.2.2.2.2⟩

/-- Counterexample to claim C8: the claim says every tool-call summary
is truncated to the fixed display length, but a `file_path` argument is
returned whole — a 130-character path yields a 130-character summary. -/
theorem summarizer_untruncated_cex :
    ¬ (summarizeToolInput exC8Block).length ≤ 120 := by decide

/-- Claim C8 as amended: the timeline emits every non-question tool
invocation as a tool-call entry whose summary tries the argument fields
in the fixed order command, file path, search pattern, query, URL,
literal content (first truthy field wins, otherwise a compact
serialization); `command`, `query`, `content` and the serialization are
truncated to 120 characters, while `file_path`, `pattern` (prefixed
with `pattern: `) and `url` are emitted untruncated. -/
theorem summarizer_priority_amended (records : List Entry) (i : Nat)
    (e : Entry) (bs : List Block) (b : Block)
    (he : records[i]? = some e) (hty : e.type = "assistant")
    (hts : strTruthy e.timestamp = true)
    (harr : arrayContent e.message = some bs)
    (hb : b ∈ bs) (htool : b.type = "tool_use")
    (hname : ¬ b.name = some "AskUserQuestion") :
    (TimelineEntry.tool_use (e.timestamp.getD "") b.name
        (summarizeToolInput b) i ∈ buildSessionTimeline records)
    ∧ (∀ b' : Block, b'.input = none → summarizeToolInput b' = "")
    ∧ (∀ (b' : Block) (inp : ToolInput), b'.input = some inp →
        strTruthy inp.command = true →
        summarizeToolInput b' = jsSlice0 (inp.command.getD "") 120
          ∧ (summarizeToolInput b').length ≤ 120)
    ∧ (∀ (b' : Block) (inp : ToolInput), b'.input = some inp →
        strTruthy inp.command = false → strTruthy inp.file_path = true →
        summarizeToolInput b' = inp.file_path.getD "")
    ∧ (∀ (b' : Block) (inp : ToolInput), b'.input = some inp →
        strTruthy inp.command = false → strTruthy inp.file_path = false →
        strTruthy inp.pattern = true →
        summarizeToolInput b' = "pattern: " ++ inp.pattern.getD "")
    ∧ (∀ (b' : Block) (inp : ToolInput), b'.input = some inp →
        strTruthy inp.command = false → strTruthy inp.file_path = false →
        strTruthy inp.pattern = false → strTruthy inp.query = true →
        summarizeToolInput b' = jsSlice0 (inp.query.getD "") 120
          ∧ (summarizeToolInput b').length ≤ 120)
    ∧ (∀ (b' : Block) (inp : ToolInput), b'.input = some inp →
        strTruthy inp.command = false → strTruthy inp.file_path = false →
        strTruthy inp.pattern = false → strTruthy inp.query = false →
        strTruthy inp.url = true →
        summarizeToolInput b' = inp.url.getD "")
    ∧ (∀ (b' : Block) (inp : ToolInput), b'.input = some inp →
        strTruthy inp.command = false → strTruthy inp.file_path = false →
        strTruthy inp.pattern = false → strTruthy inp.query = false →
        strTruthy inp.url = false → strTruthy inp.content = true →
        summarizeToolInput b' = jsSlice0 (inp.content.getD "") 120
          ∧ (summarizeToolInput b').length ≤ 120)
    ∧ (∀ (b' : Block) (inp : ToolInput), b'.input = some inp →
        strTruthy inp.command = false → strTruthy inp.file_path = false →
        strTruthy inp.pattern = false → strTruthy inp.query = false →
        strTruthy inp.url = false → strTruthy inp.content = false →
        summarizeToolInput b' = jsSlice0 (stringifyToolInput inp) 120
          ∧ (summarizeToolInput b').length ≤ 120) := by
  refine ⟨?_, ?_, ?_, ?_, ?_, ?_, ?_, ?_, ?_⟩
  · unfold buildSessionTimeline
    rw [List.mem_flatMap]
    refine ⟨(i, e), ?_, ?_⟩
    · have hmem := enumFrom_mem_of_getElem records 0 i e he
      simpa using hmem
    · unfold entryTL
      rw [if_neg (message_ne_none_of_arrayContent harr)]
      rw [if_neg (fun hc => hc hts)]
      rw [if_neg (show ¬ e.type = "file-history-snapshot" by rw [hty]; decide)]
      rw [if_pos hty, harr]
      show TimelineEntry.tool_use (e.timestamp.getD "") b.name
        (summarizeToolInput b) i
        ∈ bs.flatMap (assistantBlockTL i (e.timestamp.getD ""))
      rw [List.mem_flatMap]
      refine ⟨b, hb, ?_⟩
      unfold assistantBlockTL
      rw [if_neg (show ¬ b.type = "thinking" by rw [htool]; decide)]
      rw [if_neg (fun hc => by rw [htool] at hc; exact absurd hc.1 (by decide))]
      rw [if_pos htool, if_neg hname]
      exact List.mem_singleton.mpr rfl
  · intro b' hin
    simp [summarizeToolInput, hin]
  · intro b' inp hin hcmd
    have heq : summarizeToolInput b' = jsSlice0 (inp.command.getD "") 120 := by
      simp [summarizeToolInput, hin, hcmd]
    exact ⟨heq, heq ▸ jsSlice0_len _ _⟩
  · intro b' inp hin hcmd hfp
    simp [summarizeToolInput, hin, hcmd, hfp]
  · intro b' inp hin hcmd hfp hpat
    simp [summarizeToolInput, hin, hcmd, hfp, hpat]
  · intro b' inp hin hcmd hfp hpat hq
    have heq : summarizeToolInput b' = jsSlice0 (inp.query.getD "") 120 := by
      simp [summarizeToolInput, hin, hcmd, hfp, hpat, hq]
    exact ⟨heq, heq ▸ jsSlice0_len _ _⟩
  · intro b' inp hin hcmd hfp hpat hq hurl
    simp [summarizeToolInput, hin, hcmd, hfp, hpat, hq, hurl]
  · intro b' inp hin hcmd hfp hpat hq hurl hcont
    have heq : summarizeToolInput b' = jsSlice0 (inp.content.getD "") 120 := by
      simp [summarizeToolInput, hin, hcmd, hfp, hpat, hq, hurl, hcont]
    exact ⟨heq, heq ▸ jsSlice0_len _ _⟩
  · intro b' inp hin hcmd hfp hpat hq hurl hcont
    have heq : summarizeToolInput b'
        = jsSlice0 (stringifyToolInput inp) 120 := by
      simp [summarizeToolInput, hin, hcmd, hfp, hpat, hq, hurl, hcont]
    exact ⟨heq, heq ▸ jsSlice0_len _ _⟩

/-- Witness for the amended C8 at a concrete record with a long file
path, also exercising the truncated literal-content branch. -/
theorem summarizer_priority_amended_witness :
    ([exC8Entry][0]? = some exC8Entry)
    ∧ (TimelineEntry.tool_use (exC8Entry.timestamp.getD "") exC8Block.name
        (summarizeToolInput exC8Block) 0 ∈ buildSessionTimeline [exC8Entry])
    ∧ (summarizeToolInput exC8ContentBlock = jsSlice0 exLongContent 120
        ∧ (summarizeToolInput exC8ContentBlock).length ≤ 120) :=
  ⟨by decide,
    (summarizer_priority_amended [exC8Entry] 0 exC8Entry [exC8Block] exC8Block
      (by decide) (by decide) (by decide) (by decide) (by decide) (by decide)
      (by decide)).1,
    (summarizer_priority_amended [exC8Entry] 0 exC8Entry [exC8Block] exC8Block
      (by decide) (by decide) (by decide) (by decide) (by decide) (by decide)
      (by decide)).2.2.2.2.2.2.2.1 exC8ContentBlock
      { tiNone with content := some exLongContent }
      (by decide) (by decide) (by decide) (by decide) (by decide) (by decide)
      (by decide)⟩

/-- Counterexample to claim C9: the boilerplate-start suppression is
applied only to user-authored array text blocks; an assistant text
block whose cleaned text matches a boilerplate start (here `Today`) is
still emitted as a narrative entry, where the claim says it is
suppressed. -/
theorem assistant_boilerplate_emitted_cex :
    isBoilerplate (stripTags "Today we will fix the bug") = true
    ∧ buildSessionTimeline [exC9Entry]
      = [TimelineEntry.assistant_text "2024-01-01T00:03:00.000Z"
          "Today we will fix the bug" 0] :=
  ⟨by decide, by decide⟩

/-- Claim C9 as amended: suppressed narrative text blocks (for
assistant-authored records: falsy or shorter-than-3 cleaned text; for
user-authored array content: shorter-than-3 or boilerplate-starting
cleaned text) produce no entry — deleting them all leaves the timeline
unchanged — and every emitted narrative entry's cleaned text meets the
minimum length; boilerplate suppression does not apply to assistant
text or to user plain-string content. -/
theorem narrative_suppression_amended :
    (∀ records : List Entry,
      buildSessionTimeline (records.map scrubNarrative)
        = buildSessionTimeline records)
    ∧ (∀ (records : List Entry) (t : TimelineEntry),
        t ∈ buildSessionTimeline records → narrativeLenOK t) :=
  ⟨buildSessionTimeline_scrubNarrative,
    fun _ _ ht => buildSessionTimeline_lenOK ht⟩

/-- Witness for the amended C9 at a concrete timeline entry. -/
theorem narrative_suppression_amended_witness :
    ((TimelineEntry.assistant_text "2024-01-01T00:03:00.000Z"
        "Today we will fix the bug" 0) ∈ buildSessionTimeline [exC9Entry])
    ∧ narrativeLenOK (TimelineEntry.assistant_text "2024-01-01T00:03:00.000Z"
        "Today we will fix the bug" 0) :=
  ⟨by decide,
    narrative_suppression_amended.2 [exC9Entry] _ (by decide)⟩

/-- Claim C10: the fallback parser is total and domain-restricted —
non-string content yields the empty mapping, and for string content
every key of the result is the question text of a supplied question,
with keys unique (at most one entry per question). -/
theorem fallback_parser_safety :
    (∀ qs : List Question, parseAnswersFromContent BVal.arr qs = [])
    ∧ (∀ qs : List Question, parseAnswersFromContent BVal.absent qs = [])
    ∧ (∀ (s : String) (qs : List Question) (k : String),
        k ∈ (parseAnswersFromContent (BVal.str s) qs).map Prod.fst →
        k ∈ qs.map Question.question)
    ∧ (∀ (s : String) (qs : List Question),
        ((parseAnswersFromContent (BVal.str s) qs).map Prod.fst).Nodup) := by
  refine ⟨fun _ => rfl, fun _ => rfl, ?_, ?_⟩
  · intro s qs k hk
    have h := (foldl_answerStep_keys s.data qs []).1 k hk
    rcases h with h | h
    · cases h
    · exact h
  · intro s qs
    exact (foldl_answerStep_keys s.data qs []).2 List.nodup_nil

/-- Witness for C10 at a concrete fallback string. -/
theorem fallback_parser_safety_witness :
    "Color?" ∈ (parseAnswersFromContent (BVal.str "\"Color?\"=\"blue\"")
        [{ header := "", question := "Color?", options := [] }]).map Prod.fst
    ∧ "Color?" ∈ ([{ header := "", question := "Color?", options := [] }]
        : List Question).map Question.question :=
  ⟨by decide,
    fallback_parser_safety.2.2.1 "\"Color?\"=\"blue\""
      [{ header := "", question := "Color?", options := [] }] "Color?"
      (by decide)⟩

end QAViz
